import Mathlib

/-!
Verification of the streaming JSON-to-XML tool-call transcoder
(`src/core/task/tool-call-helper.ts`).

JavaScript strings are modelled as `List Char`.  The file first embeds the
data model and the helper functions of the source, then the character-level
state machine `processArguments`, the best-effort JSON repair
`tryBuildTemporaryJson`, and the per-response session
(`processChunkOpenAIFormat`, `finalize`), and finally proves the claims.

`JSON.parse` is modelled by an executable recursive-descent parser
(`parseJson`).  Numbers are kept as raw numeral text (their numeric value is
never relevant to the properties proved here).  `\uXXXX` escapes are decoded
with `Char.ofNat`; lone UTF-16 surrogates, which Lean's `Char` cannot
represent, decode to `Char.ofNat`'s default - no claim depends on them.
-/

set_option maxHeartbeats 1000000

namespace ToolCallHelper

abbrev Str := List Char

/-- JavaScript `/\s/` (the whitespace class used throughout the source). -/
def isWs (c : Char) : Bool :=
  c = ' ' || c = '\t' || c = '\n' || c = '\r' || c = '\x0b' || c = '\x0c' ||
  c = '\u00a0' || c = '\u1680' || ('\u2000' ≤ c && c ≤ '\u200a') ||
  c = '\u2028' || c = '\u2029' || c = '\u202f' || c = '\u205f' ||
  c = '\u3000' || c = '\ufeff'

/-- `String.prototype.trim` / `.trim()` on an accumulated buffer. -/
def trimStr (s : Str) : Str :=
  ((s.dropWhile isWs).reverse.dropWhile isWs).reverse

def isHexDigit (c : Char) : Bool :=
  ('0' ≤ c && c ≤ '9') || ('a' ≤ c && c ≤ 'f') || ('A' ≤ c && c ≤ 'F')

def hexDigitVal (c : Char) : Nat :=
  if '0' ≤ c && c ≤ '9' then c.toNat - '0'.toNat
  else if 'a' ≤ c && c ≤ 'f' then c.toNat - 'a'.toNat + 10
  else if 'A' ≤ c && c ≤ 'F' then c.toNat - 'A'.toNat + 10
  else 0

/-- The states of the parser FSM (`enum ParserState`). -/
inductive ParserState where
  | expectRoot
  | expectValue
  | expectKey
  | expectColon
  | expectCommaOrClosing
deriving DecidableEq

/-- A JSON container marker on `bracketStack` (`"{"` or `"["`). -/
inductive Bracket where
  | curly
  | square
deriving DecidableEq

/-- `class ToolCallProcessingState` of the source, field for field. -/
structure ProcState where
  functionNameOutputted : Bool := false
  functionClosed : Bool := false
  arguments : Str := []
  cursor : Nat := 0
  parserState : ParserState := .expectRoot
  inString : Bool := false
  isEscaped : Bool := false
  isStreamingStringValue : Bool := false
  bracketStack : List Bracket := []
  xmlTagStack : List Str := []
  currentString : Str := []
  primitiveBuffer : Str := []
  justOpenedArray : Bool := false
deriving DecidableEq

/-! ### A model of `JSON.parse`

`parseStrChars` parses the body of a JSON string literal (everything after
the opening quote), returning the decoded content and the remaining input
after the closing quote; it fails exactly where `JSON.parse` raises
(invalid escapes, unescaped control characters, missing closing quote). -/

def decodeSimpleEscape (e : Char) : Option Char :=
  if e = '"' then some '"'
  else if e = '\\' then some '\\'
  else if e = '/' then some '/'
  else if e = 'b' then some '\x08'
  else if e = 'f' then some '\x0c'
  else if e = 'n' then some '\n'
  else if e = 'r' then some '\r'
  else if e = 't' then some '\t'
  else none

def parseStrChars : Nat → Str → Option (Str × Str)
  | 0, _ => none
  | _, [] => none
  | fuel + 1, c :: rest =>
    if c = '"' then some ([], rest)
    else if c = '\\' then
      match rest with
      | [] => none
      | e :: rest2 =>
        if e = 'u' then
          match rest2 with
          | h1 :: h2 :: h3 :: h4 :: rest3 =>
            if isHexDigit h1 && isHexDigit h2 && isHexDigit h3 && isHexDigit h4 then
              match parseStrChars fuel rest3 with
              | some (tail, r) =>
                some (Char.ofNat
                  (((hexDigitVal h1 * 16 + hexDigitVal h2) * 16 + hexDigitVal h3) * 16
                    + hexDigitVal h4) :: tail, r)
              | none => none
            else none
          | _ => none
        else
          match decodeSimpleEscape e with
          | some d =>
            match parseStrChars fuel rest2 with
            | some (tail, r) => some (d :: tail, r)
            | none => none
          | none => none
    else if c.toNat < 0x20 then none
    else
      match parseStrChars fuel rest with
      | some (tail, r) => some (c :: tail, r)
      | none => none

/-- `JSON.parse` applied to a full string literal (used by the source as
`JSON.parse('"' + s + '"')` to decode keys and escape sequences). -/
def jsonUnquote (s : Str) : Option Str :=
  match s with
  | '"' :: rest =>
    match parseStrChars (rest.length + 1) rest with
    | some (content, []) => some content
    | _ => none
  | _ => none

/-- JSON values as produced by the model of `JSON.parse`.  Numbers keep
their raw numeral text. -/
inductive JVal where
  | null
  | bool (b : Bool)
  | num (raw : Str)
  | str (s : Str)
  | arr (xs : List JVal)
  | obj (fields : List (Str × JVal))

def isDigit (c : Char) : Bool := '0' ≤ c && c ≤ '9'

/-- Parse the remainder of a JSON number after an optional leading minus:
`int frac? exp?` with `int = 0 | [1-9][0-9]*`. -/
def parseNumBody (cs : Str) : Option (Str × Str) :=
  match cs with
  | [] => none
  | c :: rest =>
    if c = '0' then
      some ([c], rest)
    else if isDigit c then
      some (c :: rest.takeWhile isDigit, rest.dropWhile isDigit)
    else none

def parseFrac (cs : Str) : Option (Str × Str) :=
  match cs with
  | '.' :: rest =>
    match rest.takeWhile isDigit with
    | [] => none
    | ds => some ('.' :: ds, rest.dropWhile isDigit)
  | _ => some ([], cs)

def parseExp (cs : Str) : Option (Str × Str) :=
  match cs with
  | c :: rest =>
    if c = 'e' || c = 'E' then
      let (sign, rest2) :=
        match rest with
        | s :: r => if s = '+' || s = '-' then ([s], r) else (([] : Str), s :: r)
        | [] => ([], [])
      match rest2.takeWhile isDigit with
      | [] => none
      | ds => some (c :: sign ++ ds, rest2.dropWhile isDigit)
    else some ([], c :: rest)
  | [] => some ([], [])

def parseNumber (cs : Str) : Option (Str × Str) :=
  let (neg, rest) :=
    match cs with
    | '-' :: r => (['-'], r)
    | _ => (([] : Str), cs)
  match parseNumBody rest with
  | none => none
  | some (ip, r1) =>
    match parseFrac r1 with
    | none => none
    | some (fp, r2) =>
      match parseExp r2 with
      | none => none
      | some (ep, r3) => some (neg ++ ip ++ fp ++ ep, r3)

def skipWsL (cs : Str) : Str := cs.dropWhile isWs

mutual

def parseValue : Nat → Str → Option (JVal × Str)
  | 0, _ => none
  | fuel + 1, cs =>
    match skipWsL cs with
    | [] => none
    | c :: rest =>
      if c = '"' then
        match parseStrChars (rest.length + 1) rest with
        | some (content, r) => some (.str content, r)
        | none => none
      else if c = '{' then
        parseObjBody fuel (skipWsL rest) true
      else if c = '[' then
        parseArrBody fuel (skipWsL rest) true
      else if c = 't' then
        match rest with
        | 'r' :: 'u' :: 'e' :: r => some (.bool true, r)
        | _ => none
      else if c = 'f' then
        match rest with
        | 'a' :: 'l' :: 's' :: 'e' :: r => some (.bool false, r)
        | _ => none
      else if c = 'n' then
        match rest with
        | 'u' :: 'l' :: 'l' :: r => some (.null, r)
        | _ => none
      else
        match parseNumber (c :: rest) with
        | some (raw, r) => some (.num raw, r)
        | none => none

/-- Parse the inside of an object after `{` (whitespace already skipped);
`first = true` before any member has been read. -/
def parseObjBody : Nat → Str → Bool → Option (JVal × Str)
  | 0, _, _ => none
  | _ + 1, '}' :: rest, true => some (.obj [], rest)
  | fuel + 1, cs, _ =>
    match cs with
    | '"' :: rest =>
      match parseStrChars (rest.length + 1) rest with
      | some (key, r1) =>
        match skipWsL r1 with
        | ':' :: r2 =>
          match parseValue fuel r2 with
          | some (v, r3) =>
            match skipWsL r3 with
            | ',' :: r4 =>
              match parseObjBody fuel (skipWsL r4) false with
              | some (.obj fs, r5) => some (.obj ((key, v) :: fs), r5)
              | _ => none
            | '}' :: r4 => some (.obj [(key, v)], r4)
            | _ => none
          | none => none
        | _ => none
      | none => none
    | _ => none

/-- Parse the inside of an array after `[` (whitespace already skipped). -/
def parseArrBody : Nat → Str → Bool → Option (JVal × Str)
  | 0, _, _ => none
  | _ + 1, ']' :: rest, true => some (.arr [], rest)
  | fuel + 1, cs, _ =>
    match parseValue fuel cs with
    | some (v, r1) =>
      match skipWsL r1 with
      | ',' :: r2 =>
        match parseArrBody fuel r2 false with
        | some (.arr xs, r3) => some (.arr (v :: xs), r3)
        | _ => none
      | ']' :: r2 => some (.arr [v], r2)
      | _ => none
    | none => none

end

/-- Model of `JSON.parse`: succeeds iff the whole input is one JSON value
(with surrounding whitespace). -/
def parseJson (s : Str) : Option JVal :=
  match parseValue (2 * s.length + 2) s with
  | some (v, rest) => if skipWsL rest = [] then some v else none
  | none => none

/-! ### The argument transcoder state machine -/

/-- `getIndent` (a string of `level` tabs; the source clamps at 0, which
`Nat` subtraction at the call sites reproduces). -/
def getIndent (level : Nat) : Str := List.replicate level '\t'

def onOpenTag (tag : Str) (_toolName : Str) : Str := '<' :: tag ++ ['>']

def onCloseTag (tag : Str) (_toolName : Str) : Str := '<' :: '/' :: tag ++ ['>', '\n']

/-- `state.bracketStack.filter((b) => b === "{").length` -/
def curlyCount (bs : List Bracket) : Nat := (bs.filter (· = Bracket.curly)).length

/-- `Math.max(0, curlyCount - 1)` (the XML indentation level). -/
def xmlLevel (bs : List Bracket) : Nat := curlyCount bs - 1

/-- The ubiquitous `if (tag) xml += ...` guard: a missing or empty tag
(JavaScript falsy) emits nothing. -/
def tagGuard (tag? : Option Str) (mk : Str → Str) : Str :=
  match tag? with
  | some t => if t.isEmpty then [] else mk t
  | none => []

/-- A character that can be part of an unquoted primitive
(source lines 366-372). -/
def isPrimitiveChar (c : Char) : Bool :=
  ('0' ≤ c && c ≤ '9') || c = '-' || c = '.' ||
  ('a' ≤ c && c ≤ 'z') || ('A' ≤ c && c ≤ 'Z')

/-- The numeric regex `/^-?\d+(\.\d+)?$/`. -/
def matchesNumber (s : Str) : Bool :=
  let s1 := match s with | '-' :: r => r | _ => s
  let ds := s1.takeWhile isDigit
  let rest := s1.dropWhile isDigit
  !ds.isEmpty &&
    (rest.isEmpty ||
      (match rest with
       | '.' :: r2 => !r2.isEmpty && r2.all isDigit
       | _ => false))

/-- `value === "true" || value === "false" || value === "null" || regex` -/
def isValidPrimitive (v : Str) : Bool :=
  v == "true".data || v == "false".data || v == "null".data || matchesNumber v

/-- The colon lookahead (source lines 520-527): the first non-whitespace
character strictly after `pos`, if any. -/
def nextNonWsAfter (args : Str) (pos : Nat) : Option Char :=
  ((args.drop (pos + 1)).dropWhile isWs).head?

/-- `getFullEscapeSequence` (source lines 561-584). -/
def getFullEscapeSequence (str : Str) (pos : Nat) : Option Str :=
  match str[pos]? with
  | some '\\' =>
    match str[pos + 1]? with
    | none => none
    | some nextChar =>
      if nextChar = 'u' then
        if pos + 5 ≥ str.length then none
        else
          let hex := (str.drop (pos + 2)).take 4
          if hex.all isHexDigit then some ('\\' :: 'u' :: hex) else none
      else some ['\\', nextChar]
  | _ => none

/-- `JSON.parse('"' + escapeSequence + '"')` with the `catch` falling back
to the raw sequence (source lines 292-299). -/
def decodeEscapeOut (seq : Str) : Str :=
  (jsonUnquote ('"' :: seq ++ ['"'])).getD seq

/-- The `switch (char)` of `processArguments` (source lines 408-549),
including the common `state.cursor++` after it.  Never fails. -/
def paSwitch (toolName : Str) (char : Char) (s : ProcState) : Str × ProcState :=
  if char = '{' then
    if s.parserState = .expectValue || s.parserState = .expectRoot then
      let out :=
        if s.bracketStack.head? = some .square then
          tagGuard s.xmlTagStack.head?
            (fun t => getIndent (xmlLevel s.bracketStack) ++ onOpenTag t toolName)
        else []
      (out ++ ['\n'],
       { s with bracketStack := .curly :: s.bracketStack,
                parserState := .expectKey,
                justOpenedArray := false,
                cursor := s.cursor + 1 })
    else ([], { s with cursor := s.cursor + 1 })
  else if char = '}' then
    if s.parserState = .expectKey || s.parserState = .expectCommaOrClosing then
      let parentBeforePop := s.bracketStack.head?
      let bs' := s.bracketStack.tail
      let parentAfterPop := bs'.head?
      if parentBeforePop = some .curly && parentAfterPop = some .square then
        let out := tagGuard s.xmlTagStack.head?
          (fun t => getIndent (xmlLevel bs') ++ onCloseTag t toolName)
        (out, { s with bracketStack := bs', parserState := .expectCommaOrClosing,
                       cursor := s.cursor + 1 })
      else
        let out := tagGuard s.xmlTagStack.head?
          (fun t => getIndent (xmlLevel bs') ++ onCloseTag t toolName)
        (out, { s with bracketStack := bs', xmlTagStack := s.xmlTagStack.tail,
                       parserState := .expectCommaOrClosing, cursor := s.cursor + 1 })
    else ([], { s with cursor := s.cursor + 1 })
  else if char = '[' then
    if s.parserState = .expectValue || s.parserState = .expectRoot then
      ([], { s with bracketStack := .square :: s.bracketStack,
                    parserState := .expectValue,
                    justOpenedArray := true, cursor := s.cursor + 1 })
    else ([], { s with cursor := s.cursor + 1 })
  else if char = ']' then
    if s.parserState = .expectValue || s.parserState = .expectCommaOrClosing then
      let out :=
        if s.parserState = .expectValue && s.justOpenedArray && !s.xmlTagStack.isEmpty then
          tagGuard s.xmlTagStack.head?
            (fun t => getIndent (xmlLevel s.bracketStack) ++ onOpenTag t toolName ++
                      onCloseTag t toolName)
        else []
      (out, { s with bracketStack := s.bracketStack.tail,
                     xmlTagStack := s.xmlTagStack.tail,
                     parserState := .expectCommaOrClosing,
                     justOpenedArray := false, cursor := s.cursor + 1 })
    else ([], { s with cursor := s.cursor + 1 })
  else if char = '"' then
    if s.parserState = .expectValue then
      let out :=
        if s.bracketStack.head? = some .square then
          tagGuard s.xmlTagStack.head?
            (fun t => getIndent (xmlLevel s.bracketStack) ++ onOpenTag t toolName)
        else []
      (out, { s with isStreamingStringValue := true, inString := true,
                     cursor := s.cursor + 1 })
    else if s.parserState = .expectKey then
      ([], { s with isStreamingStringValue := false, inString := true,
                    cursor := s.cursor + 1 })
    else ([], { s with cursor := s.cursor + 1 })
  else if char = ':' then
    if s.parserState = .expectColon then
      let out :=
        if nextNonWsAfter s.arguments s.cursor ≠ some '[' then
          tagGuard s.xmlTagStack.head?
            (fun t => getIndent (xmlLevel s.bracketStack) ++ onOpenTag t toolName)
        else []
      (out, { s with parserState := .expectValue, cursor := s.cursor + 1 })
    else ([], { s with cursor := s.cursor + 1 })
  else if char = ',' then
    if s.parserState = .expectCommaOrClosing then
      ([], { s with parserState :=
                      (if s.bracketStack.head? = some .curly then .expectKey
                       else .expectValue),
                    cursor := s.cursor + 1 })
    else ([], { s with cursor := s.cursor + 1 })
  else ([], { s with cursor := s.cursor + 1 })

/-- One iteration of the `while` loop body of `processArguments` (source
lines 282-551).  `none` models the early `return xml` on an incomplete
escape sequence; otherwise the xml emitted by this iteration and the
updated state. -/
def paStep (toolName : Str) (s : ProcState) : Option (Str × ProcState) :=
  match s.arguments[s.cursor]? with
  | none => some ([], { s with cursor := s.cursor + 1 })
  | some char =>
    if s.inString then
      if s.isStreamingStringValue then
        if char = '\\' then
          match getFullEscapeSequence s.arguments s.cursor with
          | some escapeSequence =>
              some (decodeEscapeOut escapeSequence,
                    { s with cursor := s.cursor + escapeSequence.length })
          | none => none
        else if char = '"' then
          let parent := s.bracketStack.head?
          if parent = some .curly then
            some (tagGuard s.xmlTagStack.head? (fun t => onCloseTag t toolName),
                  { s with inString := false, isStreamingStringValue := false,
                           xmlTagStack := s.xmlTagStack.tail,
                           parserState := .expectCommaOrClosing,
                           cursor := s.cursor + 1 })
          else if parent = some .square then
            some (tagGuard s.xmlTagStack.head? (fun t => onCloseTag t toolName),
                  { s with inString := false, isStreamingStringValue := false,
                           parserState := .expectCommaOrClosing,
                           cursor := s.cursor + 1 })
          else
            some ([], { s with inString := false, isStreamingStringValue := false,
                               parserState := .expectCommaOrClosing,
                               cursor := s.cursor + 1 })
        else
          some ([char], { s with cursor := s.cursor + 1 })
      else
        if char = '\\' && !s.isEscaped then
          some ([], { s with currentString := s.currentString ++ ['\\'],
                             isEscaped := true, cursor := s.cursor + 1 })
        else if char = '"' && !s.isEscaped then
          let finalString :=
            (jsonUnquote ('"' :: s.currentString ++ ['"'])).getD s.currentString
          some ([], { s with inString := false,
                             xmlTagStack := finalString :: s.xmlTagStack,
                             parserState := .expectColon,
                             currentString := [],
                             cursor := s.cursor + 1 })
        else
          some ([], { s with currentString := s.currentString ++ [char],
                             isEscaped := false, cursor := s.cursor + 1 })
    else if isWs char then
      some ([], { s with cursor := s.cursor + 1 })
    else if s.parserState = .expectValue && isPrimitiveChar char then
      some ([], { s with primitiveBuffer := s.primitiveBuffer ++ [char],
                         cursor := s.cursor + 1 })
    else if s.parserState = .expectValue && !s.primitiveBuffer.isEmpty then
      let value := trimStr s.primitiveBuffer
      if isValidPrimitive value then
        if s.bracketStack.head? = some .square then
          some (tagGuard s.xmlTagStack.head?
                  (fun t => getIndent (xmlLevel s.bracketStack) ++ onOpenTag t toolName ++
                            value ++ onCloseTag t toolName),
                { s with parserState := .expectCommaOrClosing, primitiveBuffer := [] })
        else
          some (tagGuard s.xmlTagStack.head? (fun t => value ++ onCloseTag t toolName),
                { s with xmlTagStack := s.xmlTagStack.tail,
                         parserState := .expectCommaOrClosing, primitiveBuffer := [] })
      else
        some (paSwitch toolName char { s with primitiveBuffer := [] })
    else
      some (paSwitch toolName char s)

/-- Termination measure for the `while` loop: every iteration strictly
decreases it (the valid-primitive flush keeps the cursor but clears the
buffer; every other iteration advances the cursor). -/
def stepMeasure (s : ProcState) : Nat :=
  2 * (s.arguments.length - s.cursor) +
    (if s.primitiveBuffer ≠ [] ∧ s.parserState = .expectValue then 1 else 0)

/-- The `while (state.cursor < args.length)` loop of `processArguments`,
with explicit fuel. -/
def paLoop (toolName : Str) : Nat → ProcState → Str → Str × ProcState
  | 0, s, acc => (acc, s)
  | fuel + 1, s, acc =>
    if s.cursor < s.arguments.length then
      match paStep toolName s with
      | none => (acc, s)
      | some (out, s') => paLoop toolName fuel s' (acc ++ out)
    else (acc, s)

/-- `processArguments` (source lines 278-553).  The fuel bound strictly
exceeds `stepMeasure`, so the loop always reaches a quiescent point. -/
def processArguments (toolName : Str) (s : ProcState) : Str × ProcState :=
  paLoop toolName (2 * (s.arguments.length - s.cursor) + 2) s []

/-! ### Best-effort JSON repair (`tryBuildTemporaryJson`) -/

/-- The regex replace `str.replace(/,(\s*)$/, "$1")`: drop the last comma
when only whitespace follows it, keeping that whitespace. -/
def trimTrailingComma (str : Str) : Str :=
  let rev := str.reverse
  let ws := rev.takeWhile isWs
  match rev.dropWhile isWs with
  | ',' :: r => r.reverse ++ ws.reverse
  | _ => str

/-- `/^-?\d+\.$/` (a number with a trailing dot). -/
def matchIntDot (s : Str) : Bool :=
  let s1 := match s with | '-' :: r => r | _ => s
  !(s1.takeWhile isDigit).isEmpty && s1.dropWhile isDigit == ['.']

/-- `completePrimitiveSuffix` (source lines 608-617), regex for regex. -/
def completePrimitiveSuffix (pb : Str) : Str :=
  if pb == "t".data || pb == "tr".data || pb == "tru".data then "e".data
  else if pb == "f".data || pb == "fa".data || pb == "fal".data || pb == "fals".data then
    "e".data
  else if pb == "n".data || pb == "nu".data || pb == "nul".data then "l".data
  else if pb == [] || pb == "-".data then "0".data
  else if matchIntDot pb then "0".data
  else []

/-- Index of the last occurrence of the two-character sequence `\u`
(`input.lastIndexOf("\\u")`). -/
def lastIndexOfBackslashU (s : Str) : Option Nat :=
  (List.range s.length).reverse.find?
    (fun i => s[i]? == some '\\' && s[i + 1]? == some 'u')

/-- `stripIncompleteUnicodeAtEnd` (source lines 619-628). -/
def stripIncompleteUnicodeAtEnd (input : Str) : Str :=
  match lastIndexOfBackslashU input with
  | some uniIndex =>
    let tail := input.drop (uniIndex + 2)
    if !(tail.length == 4 && tail.all isHexDigit) then
      input.take uniIndex
    else input
  | none => input

/-- `findLastNonWhitespaceChar` (source lines 692-698); `none` models the
empty-string result. -/
def findLastNonWhitespaceChar (str : Str) : Option Char :=
  (str.reverse.dropWhile isWs).head?

/-- The bounded trailing-comma retry loop of `tryBuildTemporaryJson`
(source lines 676-686). -/
def tryTrimLoop : Str → Nat → Option JVal
  | _, 0 => none
  | s3, k + 1 =>
    let trimmed := trimTrailingComma s3
    if trimmed == s3 then none
    else
      match parseJson trimmed with
      | some v => some v
      | none => tryTrimLoop trimmed k

/-- `tryBuildTemporaryJson` (source lines 599-690). -/
def tryBuildTemporaryJson (state : ProcState) (rawArgs : Str) : Option JVal :=
  let s := rawArgs
  if s.isEmpty || (trimStr s).isEmpty then none
  else
    let s :=
      if state.inString then
        let s1 := if s.getLast? = some '\\' then s.dropLast else s
        stripIncompleteUnicodeAtEnd s1 ++ ['"']
      else if !state.primitiveBuffer.isEmpty then
        let suffix := completePrimitiveSuffix state.primitiveBuffer
        if !suffix.isEmpty then s ++ suffix else s
      else s
    let s := trimTrailingComma s
    let s := state.bracketStack.foldl
      (fun acc b => trimTrailingComma acc ++ (if b = .curly then ['}'] else [']'])) s
    match parseJson s with
    | some v => some v
    | none =>
      let s2 :=
        if findLastNonWhitespaceChar s = some ':' ∨ state.parserState = .expectValue then
          s ++ "null".data
        else s
      let s2 := trimTrailingComma s2
      match parseJson s2 with
      | some v => some v
      | none => tryTrimLoop s 3

/-! ### The stream session (`StreamingToolCallProcessor`) -/

/-- One decoded delta `{index, id?, function?: {name?, arguments?}}`;
missing fields are the empty string. -/
structure Delta where
  index : Nat := 0
  id : Str := []
  name : Str := []
  arguments : Str := []
deriving DecidableEq

/-- One entry of `accumulatedToolCalls`. -/
structure AccToolCall where
  id : Str := []
  name : Str := []
  arguments : Str := []
deriving DecidableEq

/-- The processor: the sparse `accumulatedToolCalls` array and the
`processingStates` map, which the source always creates and updates in
lockstep, are modelled as one index-keyed list (`none` = hole). -/
structure Processor where
  calls : List (Option (AccToolCall × ProcState)) := []
deriving DecidableEq

/-- Assignment `arr[i] = a` on a (possibly sparse) JavaScript array. -/
def setAt (l : List (Option α)) (i : Nat) (a : α) : List (Option α) :=
  if i < l.length then l.set i (some a)
  else l ++ List.replicate (i - l.length) none ++ [some a]

/-- The `anthropicContent` record (`Anthropic.ToolUseBlockParam`;
`type: "tool_use"` is constant and omitted). -/
structure AnthContent where
  id : Option Str
  name : Str
  input : JVal

/-- `ToolCallParam` of the source.  `toolUserId` is `none` when the source
stores `undefined`; `originContent` is the accumulated calls array. -/
structure ToolCallParam where
  providerType : Str
  toolName : Str
  toolUserId : Option Str
  chunkContent : Str
  anthropicContent : Option AnthContent
  originContent : List (Option AccToolCall)

/-- The per-delta body of the `for (const delta of chunk)` loop in
`processChunkOpenAIFormat` (source lines 111-163).  The accumulator carries
the xml produced so far, the running `index` variable, and the processor. -/
def processDelta (registry : List Str) (acc : Str × Nat × Processor) (delta : Delta) :
    Str × Nat × Processor :=
  let (xmlOutput, _, p) := acc
  let index := delta.index
  let (toolCall, state, calls) :=
    match p.calls.getD index none with
    | some (tc, st) => (tc, st, p.calls)
    | none =>
      let tc : AccToolCall := { id := delta.id }
      let st : ProcState := {}
      (tc, st, setAt p.calls index (tc, st))
  let toolCall :=
    { toolCall with
      name := toolCall.name ++ delta.name,
      arguments := toolCall.arguments ++ delta.arguments }
  let isValidToolName := !toolCall.name.isEmpty && registry.contains toolCall.name
  let (xmlAdd, state) :=
    if isValidToolName && !state.functionNameOutputted then
      let state := { state with functionNameOutputted := true }
      if toolCall.arguments.length > 0 then
        let state := { state with arguments := toolCall.arguments }
        let (x, state) := processArguments toolCall.name state
        ('<' :: toolCall.name ++ ['>'] ++ x, state)
      else ('<' :: toolCall.name ++ ['>'], state)
    else if state.functionNameOutputted &&
        toolCall.arguments.length > state.arguments.length then
      let state := { state with arguments := toolCall.arguments }
      processArguments toolCall.name state
    else ([], state)
  let (xmlClose, state) :=
    if isValidToolName && !state.functionClosed && state.bracketStack.isEmpty &&
        state.cursor > 0 then
      if trimStr (state.arguments.drop state.cursor) = [] then
        ('<' :: '/' :: toolCall.name ++ ['>', '\n', '\n'],
         { state with functionClosed := true })
      else ([], state)
    else ([], state)
  (xmlOutput ++ xmlAdd ++ xmlClose, index,
   { calls := setAt calls index (toolCall, state) })

/-- `processChunkOpenAIFormat` (source lines 106-206). -/
def processChunkOpenAIFormat (registry : List Str) (chunk : List Delta) (p : Processor) :
    ToolCallParam × Processor :=
  let (xmlOutput, index, p') := chunk.foldl (processDelta registry) ([], 0, p)
  let entry := p'.calls.getD index none
  let toolName := match entry with | some (tc, _) => tc.name | none => []
  let isValidToolName := !toolName.isEmpty && registry.contains toolName
  let toolUserId : Option Str :=
    match entry with
    | some (tc, _) => if tc.id.isEmpty then none else some tc.id
    | none => none
  let result : ToolCallParam :=
    { providerType := "openai".data
      toolName := if isValidToolName then toolName else []
      toolUserId := toolUserId
      chunkContent := xmlOutput
      anthropicContent := none
      originContent := p'.calls.map (·.map Prod.fst) }
  let result :=
    match entry with
    | some (tc, st) =>
      if !st.functionClosed && isValidToolName then
        match tryBuildTemporaryJson st tc.arguments with
        | some tmpInput =>
          let ac : AnthContent :=
            { id := result.toolUserId, name := result.toolName, input := tmpInput }
          { result with anthropicContent := some ac }
        | none => result
      else result
    | none => result
  let result :=
    match entry with
    | some (tc, st) =>
      if st.functionClosed && isValidToolName then
        let input := (parseJson tc.arguments).getD (JVal.str [])
        let ac : AnthContent :=
          { id := result.toolUserId, name := result.toolName, input := input }
        { result with anthropicContent := some ac }
      else result
    | none => result
  (result, p')

/-- `processChunkTool` (source lines 92-99): the non-`"openai"` branch
raises `Unsupported provider type`. -/
def processChunkTool (providerType : Str) (registry : List Str) (chunk : List Delta)
    (p : Processor) : Except Str (ToolCallParam × Processor) :=
  if providerType = "openai".data then
    .ok (processChunkOpenAIFormat registry chunk p)
  else
    .error ("Unsupported provider type: ".data ++ providerType)

/-- `processChunk` (source lines 78-85). -/
def processChunk (providerType : Str) (registry : List Str) (chunk : List Delta)
    (p : Processor) : Except Str (Str × Processor) :=
  if providerType = "openai".data then
    let (r, p') := processChunkOpenAIFormat registry chunk p
    .ok (r.chunkContent, p')
  else
    .error ("Unsupported provider type: ".data ++ providerType)

/-- The tag-draining `while` loop of `finalize` (source lines 239-243);
`bracketStack` is not mutated there, so every tag closes at the same
indentation level. -/
def closeTagsLoop (toolName : Str) : List Str → List Bracket → Str
  | [], _ => []
  | tag :: rest, bs =>
    getIndent (xmlLevel bs) ++ onCloseTag tag toolName ++ closeTagsLoop toolName rest bs

/-- The body of `finalize`'s per-index loop (source lines 217-248). -/
def finalizeEntry (registry : List Str) (e : Option (AccToolCall × ProcState)) :
    Str × Option (AccToolCall × ProcState) :=
  match e with
  | none => ([], none)
  | some (tc, st) =>
    if st.functionClosed then ([], some (tc, st))
    else if !(!tc.name.isEmpty && registry.contains tc.name) then ([], some (tc, st))
    else
      let (x1, st) :=
        if tc.arguments.length > st.arguments.length then
          processArguments tc.name { st with arguments := tc.arguments }
        else ([], st)
      let x2 := closeTagsLoop tc.name st.xmlTagStack st.bracketStack
      let st := { st with xmlTagStack := [] }
      let x3 := if st.functionNameOutputted then '<' :: '/' :: tc.name ++ ['>', '\n'] else []
      (x1 ++ x2 ++ x3, some (tc, st))

/-- `finalize` (source lines 212-250).  Note that it never sets
`functionClosed`. -/
def finalize (registry : List Str) (p : Processor) : Str × Processor :=
  let results := p.calls.map (finalizeEntry registry)
  ((results.map Prod.fst).flatten, { calls := results.map Prod.snd })

/-- `reset` (source lines 255-258). -/
def reset (_p : Processor) : Processor := {}

/-- The fixed contents of the tool registry
(`ToolRegistry`, whose `isToolSupported` is set membership). -/
def toolRegistryNames : List Str :=
  (["access_mcp_resource", "apply_diff", "ask_followup_question", "attempt_completion",
    "browser_action", "codebase_search", "execute_command", "fetch_instructions",
    "generate_image", "insert_content", "list_code_definition_names", "list_files",
    "new_task", "read_file", "run_slash_command", "search_and_replace", "search_files",
    "switch_mode", "update_todo_list", "use_mcp_tool", "write_to_file"].map String.data)

end ToolCallHelper

namespace ToolCallHelper

/-! ### Concrete runs used by counterexamples and witnesses -/

/-- A delta for index 0 (the common single-call case). -/
def delta0 (id name args : Str) : Delta :=
  { index := 0, id := id, name := name, arguments := args }

end ToolCallHelper

namespace ToolCallHelper

/-! ### Loop calculus for `processArguments` -/

theorem getFullEscapeSequence_len {args : Str} {pos : Nat} {seq : Str}
    (h : getFullEscapeSequence args pos = some seq) : 1 ≤ seq.length := by
  unfold getFullEscapeSequence at h
  split at h
  · split at h
    · exact absurd h (by simp)
    · split at h
      · split at h
        · exact absurd h (by simp)
        · dsimp only [] at h
          split at h
          · cases h; simp
          · exact absurd h (by simp)
      · cases h; simp
  · exact absurd h (by simp)

theorem paSwitch_snd_cursor (tn : Str) (ch : Char) (s : ProcState) :
    (paSwitch tn ch s).2.cursor = s.cursor + 1 := by
  unfold paSwitch; dsimp only []; split_ifs <;> rfl

theorem paSwitch_snd_arguments (tn : Str) (ch : Char) (s : ProcState) :
    (paSwitch tn ch s).2.arguments = s.arguments := by
  unfold paSwitch; dsimp only []; split_ifs <;> rfl

theorem stepMeasure_lt_of_cursor_lt {s s' : ProcState}
    (h : s.cursor < s.arguments.length) (ha : s'.arguments = s.arguments)
    (hc : s.cursor < s'.cursor) : stepMeasure s' < stepMeasure s := by
  unfold stepMeasure
  rw [ha]
  have h1 : (if s'.primitiveBuffer ≠ [] ∧ s'.parserState = .expectValue then 1 else 0) ≤ 1 := by
    split <;> simp
  omega

theorem stepMeasure_lt_of_flush {s s' : ProcState}
    (ha : s'.arguments = s.arguments) (hc : s'.cursor = s.cursor)
    (hpb : s.primitiveBuffer ≠ []) (hps : s.parserState = .expectValue)
    (hpb' : s'.primitiveBuffer = []) : stepMeasure s' < stepMeasure s := by
  unfold stepMeasure
  rw [ha, hc, if_neg (by simp [hpb']), if_pos ⟨hpb, hps⟩]
  omega

theorem paStep_next {tn : Str} {s : ProcState} {out : Str} {s' : ProcState}
    (h : s.cursor < s.arguments.length) (hs : paStep tn s = some (out, s')) :
    s'.arguments = s.arguments ∧ stepMeasure s' < stepMeasure s := by
  have hget : s.arguments[s.cursor]? = some s.arguments[s.cursor] :=
    List.getElem?_eq_getElem h
  unfold paStep at hs
  simp only [hget] at hs
  split at hs
  · -- inString
    split at hs
    · -- streaming value
      split at hs
      · -- backslash: escape sequence
        split at hs
        · rename_i seq hseq
          injection hs with hs
          rw [Prod.mk.injEq] at hs
          obtain ⟨-, hst⟩ := hs
          subst hst
          refine ⟨rfl, stepMeasure_lt_of_cursor_lt h rfl ?_⟩
          have := getFullEscapeSequence_len hseq
          dsimp only []
          omega
        · exact absurd hs (by simp)
      · split at hs
        · -- closing quote, three parent cases
          split at hs
          · injection hs with hs
            rw [Prod.mk.injEq] at hs
            obtain ⟨-, hst⟩ := hs
            subst hst
            exact ⟨rfl, stepMeasure_lt_of_cursor_lt h rfl (Nat.lt_succ_self _)⟩
          · split at hs
            · injection hs with hs
              rw [Prod.mk.injEq] at hs
              obtain ⟨-, hst⟩ := hs
              subst hst
              exact ⟨rfl, stepMeasure_lt_of_cursor_lt h rfl (Nat.lt_succ_self _)⟩
            · injection hs with hs
              rw [Prod.mk.injEq] at hs
              obtain ⟨-, hst⟩ := hs
              subst hst
              exact ⟨rfl, stepMeasure_lt_of_cursor_lt h rfl (Nat.lt_succ_self _)⟩
        · -- plain streamed character
          injection hs with hs
          rw [Prod.mk.injEq] at hs
          obtain ⟨-, hst⟩ := hs
          subst hst
          exact ⟨rfl, stepMeasure_lt_of_cursor_lt h rfl (Nat.lt_succ_self _)⟩
    · -- key buffering, three cases
      split at hs
      · injection hs with hs
        rw [Prod.mk.injEq] at hs
        obtain ⟨-, hst⟩ := hs
        subst hst
        exact ⟨rfl, stepMeasure_lt_of_cursor_lt h rfl (Nat.lt_succ_self _)⟩
      · split at hs
        · injection hs with hs
          rw [Prod.mk.injEq] at hs
          obtain ⟨-, hst⟩ := hs
          subst hst
          exact ⟨rfl, stepMeasure_lt_of_cursor_lt h rfl (Nat.lt_succ_self _)⟩
        · injection hs with hs
          rw [Prod.mk.injEq] at hs
          obtain ⟨-, hst⟩ := hs
          subst hst
          exact ⟨rfl, stepMeasure_lt_of_cursor_lt h rfl (Nat.lt_succ_self _)⟩
  · split at hs
    · -- whitespace skip
      injection hs with hs
      rw [Prod.mk.injEq] at hs
      obtain ⟨-, hst⟩ := hs
      subst hst
      exact ⟨rfl, stepMeasure_lt_of_cursor_lt h rfl (Nat.lt_succ_self _)⟩
    · split at hs
      · -- accumulate primitive char
        injection hs with hs
        rw [Prod.mk.injEq] at hs
        obtain ⟨-, hst⟩ := hs
        subst hst
        exact ⟨rfl, stepMeasure_lt_of_cursor_lt h rfl (Nat.lt_succ_self _)⟩
      · split at hs
        · -- primitive buffer nonempty
          rename_i hcond
          rw [Bool.and_eq_true, decide_eq_true_eq] at hcond
          obtain ⟨hps, hpb⟩ := hcond
          rw [Bool.not_eq_eq_eq_not, Bool.not_true, List.isEmpty_eq_false] at hpb
          split at hs
          · -- valid primitive flush
            split at hs
            · injection hs with hs
              rw [Prod.mk.injEq] at hs
              obtain ⟨-, hst⟩ := hs
              subst hst
              exact ⟨rfl, stepMeasure_lt_of_flush rfl rfl hpb hps rfl⟩
            · injection hs with hs
              rw [Prod.mk.injEq] at hs
              obtain ⟨-, hst⟩ := hs
              subst hst
              exact ⟨rfl, stepMeasure_lt_of_flush rfl rfl hpb hps rfl⟩
          · -- invalid primitive: switch with cleared buffer
            injection hs with hs
            have hst : (paSwitch tn s.arguments[s.cursor] { s with primitiveBuffer := [] }).2 = s' :=
              congrArg Prod.snd hs
            subst hst
            refine ⟨(paSwitch_snd_arguments ..).trans rfl, ?_⟩
            refine stepMeasure_lt_of_cursor_lt h ((paSwitch_snd_arguments ..).trans rfl) ?_
            rw [paSwitch_snd_cursor]
            exact Nat.lt_succ_self _
        · -- plain switch
          injection hs with hs
          have hst : (paSwitch tn s.arguments[s.cursor] s).2 = s' := congrArg Prod.snd hs
          subst hst
          refine ⟨paSwitch_snd_arguments .., ?_⟩
          refine stepMeasure_lt_of_cursor_lt h (paSwitch_snd_arguments ..) ?_
          rw [paSwitch_snd_cursor]
          exact Nat.lt_succ_self _

end ToolCallHelper

namespace ToolCallHelper

theorem stepMeasure_lt_fuel (s : ProcState) :
    stepMeasure s < 2 * (s.arguments.length - s.cursor) + 2 := by
  unfold stepMeasure
  have h1 : (if s.primitiveBuffer ≠ [] ∧ s.parserState = .expectValue then 1 else 0) ≤ 1 := by
    split <;> simp
  omega

theorem paLoop_acc (tn : Str) (fuel : Nat) : ∀ (s : ProcState) (acc : Str),
    paLoop tn fuel s acc = (acc ++ (paLoop tn fuel s []).1, (paLoop tn fuel s []).2) := by
  induction fuel with
  | zero => intro s acc; simp [paLoop]
  | succ f ih =>
    intro s acc
    simp only [paLoop]
    split
    · cases hstep : paStep tn s with
      | none => simp
      | some pr =>
        obtain ⟨out, s'⟩ := pr
        simp only []
        rw [ih s' (acc ++ out), ih s' ([] ++ out)]
        simp
    · simp

theorem paLoop_fuel (tn : Str) : ∀ (f₁ f₂ : Nat) (s : ProcState) (acc : Str),
    stepMeasure s < f₁ → stepMeasure s < f₂ →
    paLoop tn f₁ s acc = paLoop tn f₂ s acc := by
  intro f₁
  induction f₁ with
  | zero => intro f₂ s acc h1 h2; omega
  | succ f ih =>
    intro f₂ s acc h1 h2
    cases f₂ with
    | zero => omega
    | succ g =>
      simp only [paLoop]
      split
      · rename_i hc
        cases hstep : paStep tn s with
        | none => simp
        | some pr =>
          obtain ⟨out, s'⟩ := pr
          simp only []
          have hm := (paStep_next hc hstep).2
          exact ih g s' (acc ++ out) (by omega) (by omega)
      · rfl

theorem paLoop_succ (tn : Str) (f : Nat) (s : ProcState) (acc : Str) :
    paLoop tn (f + 1) s acc =
      if s.cursor < s.arguments.length then
        match paStep tn s with
        | none => (acc, s)
        | some (out, s') => paLoop tn f s' (acc ++ out)
      else (acc, s) := rfl

theorem processArguments_of_step {tn : Str} {s : ProcState} {out : Str} {s' : ProcState}
    (h : s.cursor < s.arguments.length) (hs : paStep tn s = some (out, s')) :
    processArguments tn s =
      (out ++ (processArguments tn s').1, (processArguments tn s').2) := by
  have hm := (paStep_next h hs).2
  have hf1 := stepMeasure_lt_fuel s
  have hf2 := stepMeasure_lt_fuel s'
  unfold processArguments
  rw [show 2 * (s.arguments.length - s.cursor) + 2 =
        (2 * (s.arguments.length - s.cursor) + 1) + 1 from rfl]
  rw [paLoop_succ, if_pos h, hs]
  dsimp only []
  rw [paLoop_acc tn (2 * (s.arguments.length - s.cursor) + 1) s' ([] ++ out)]
  rw [paLoop_fuel tn (2 * (s.arguments.length - s.cursor) + 1)
      (2 * (s'.arguments.length - s'.cursor) + 2) s' [] (by omega) hf2]
  simp

/-- A state on which the `while` loop makes no further progress: either the
buffer is exhausted, or the loop body would `return` at once (incomplete
escape sequence). -/
def paHalted (tn : Str) (s : ProcState) : Prop :=
  s.arguments.length ≤ s.cursor ∨ paStep tn s = none

theorem paLoop_halted {tn : Str} {s : ProcState} (h : paHalted tn s)
    (fuel : Nat) (acc : Str) : paLoop tn fuel s acc = (acc, s) := by
  cases fuel with
  | zero => rfl
  | succ f =>
    simp only [paLoop]
    rcases h with h | h
    · rw [if_neg (by omega)]
    · split
      · simp [h]
      · rfl

theorem paLoop_result_halted (tn : Str) : ∀ (fuel : Nat) (s : ProcState) (acc : Str),
    stepMeasure s < fuel → paHalted tn (paLoop tn fuel s acc).2 := by
  intro fuel
  induction fuel with
  | zero => intro s acc h; omega
  | succ f ih =>
    intro s acc h
    simp only [paLoop]
    split
    · rename_i hc
      cases hstep : paStep tn s with
      | none => exact Or.inr hstep
      | some pr =>
        obtain ⟨out, s'⟩ := pr
        simp only []
        have hm := (paStep_next hc hstep).2
        exact ih s' (acc ++ out) (by omega)
    · rename_i hc
      exact Or.inl (Nat.le_of_not_lt hc)

theorem processArguments_halted {tn : Str} {s : ProcState} (h : paHalted tn s) :
    processArguments tn s = ([], s) :=
  paLoop_halted h _ _

theorem processArguments_result_halted (tn : Str) (s : ProcState) :
    paHalted tn (processArguments tn s).2 :=
  paLoop_result_halted tn _ s [] (stepMeasure_lt_fuel s)

/-- Running `processArguments` a second time from the state the first run
left behind, with no new characters, emits nothing and changes nothing. -/
theorem processArguments_idempotent (tn : Str) (s : ProcState) :
    processArguments tn (processArguments tn s).2 =
      ([], (processArguments tn s).2) :=
  processArguments_halted (processArguments_result_halted tn s)

end ToolCallHelper


namespace ToolCallHelper

/-! ### Buffer-extension (chunk invariance) machinery -/

/-- `s` with more text appended to its arguments buffer (what the session
does between `processArguments` calls). -/
def extendArgs (t : Str) (s : ProcState) : ProcState :=
  { s with arguments := s.arguments ++ t }

theorem getElem?_extend {a t : Str} {p : Nat} {c : Char} (h : a[p]? = some c) :
    (a ++ t)[p]? = some c := by
  have hlt : p < a.length := by
    by_contra hge
    rw [List.getElem?_eq_none (by omega)] at h
    exact Option.noConfusion h
  rw [List.getElem?_append_left hlt]
  exact h

theorem nextNonWs_extend {a t : Str} {p : Nat} {c : Char}
    (h : nextNonWsAfter a p = some c) : nextNonWsAfter (a ++ t) p = some c := by
  unfold nextNonWsAfter at h ⊢
  have hle : p + 1 ≤ a.length := by
    by_contra hgt
    rw [List.drop_eq_nil_of_le (by omega)] at h
    simp at h
  rw [List.drop_append_of_le_length hle]
  rw [List.dropWhile_append]
  split
  · rename_i hemp
    rw [List.isEmpty_iff] at hemp
    rw [hemp] at h
    simp at h
  · rename_i hemp
    rw [List.isEmpty_iff] at hemp
    rw [List.head?_append_of_ne_nil _ hemp]
    exact h

theorem getFullEscapeSequence_extend {a t : Str} {pos : Nat} {seq : Str}
    (h : getFullEscapeSequence a pos = some seq) :
    getFullEscapeSequence (a ++ t) pos = some seq := by
  unfold getFullEscapeSequence at h ⊢
  split at h
  · rename_i hc0
    rw [getElem?_extend hc0]
    dsimp only []
    split at h
    · exact absurd h (by simp)
    · rename_i nc hc1
      rw [getElem?_extend hc1]
      dsimp only []
      have hlen1 : pos + 1 < a.length := by
        by_contra hge
        rw [List.getElem?_eq_none (by omega)] at hc1
        exact Option.noConfusion hc1
      split at h
      · rename_i hu
        split at h
        · exact absurd h (by simp)
        · rename_i hlen
          rw [if_pos hu]
          have hlen' : pos + 5 < a.length := by omega
          rw [if_neg (by simp; omega)]
          have hdrop : (a ++ t).drop (pos + 2) = a.drop (pos + 2) ++ t :=
            List.drop_append_of_le_length (by omega)
          have htake : ((a ++ t).drop (pos + 2)).take 4 = (a.drop (pos + 2)).take 4 := by
            rw [hdrop]
            exact List.take_append_of_le_length (by simp; omega)
          rw [htake]
          exact h
      · rename_i hu
        rw [if_neg hu]
        exact h
  · exact absurd h (by simp)

/-- The colon-lookahead side condition under which extending the buffer
cannot change the step taken at a `:` in `EXPECT_COLON` state: either the
lookahead already sees a character, or the extension does not reveal
a `[`. -/
def lookaheadOK (a t : Str) (p : Nat) : Prop :=
  (nextNonWsAfter a p).isSome ∨ nextNonWsAfter (a ++ t) p ≠ some '['

/-- `lookaheadOK` at every colon of the prefix: the side condition for
chunk-invariant resumption. -/
def colonOK (a t : Str) : Prop :=
  ∀ p, p < a.length → a[p]? = some ':' → lookaheadOK a t p

theorem paSwitch_extend {tn : Str} {ch : Char} {s : ProcState} (t : Str)
    (hcol : ch = ':' → s.parserState = .expectColon →
      lookaheadOK s.arguments t s.cursor) :
    paSwitch tn ch (extendArgs t s) =
      ((paSwitch tn ch s).1, extendArgs t (paSwitch tn ch s).2) := by
  by_cases hch : ch = ':'
  · subst hch
    by_cases hps : s.parserState = .expectColon
    · rcases hl : nextNonWsAfter s.arguments s.cursor with _ | c
      · have h2 : ¬ nextNonWsAfter (s.arguments ++ t) s.cursor = some '[' := by
          rcases hcol rfl hps with hsome | hne
          · rw [hl] at hsome; simp at hsome
          · exact hne
        simp [paSwitch, extendArgs, hps, hl, h2]
      · have h2 := nextNonWs_extend (t := t) hl
        simp [paSwitch, extendArgs, hps, hl, h2]
    · simp [paSwitch, extendArgs, hps]
  · simp only [paSwitch, extendArgs, hch, if_false, apply_ite (Prod.fst (β := ProcState)),
      apply_ite (Prod.snd (α := Str))]
    split_ifs <;> rfl

end ToolCallHelper

namespace ToolCallHelper

theorem paStep_extend {tn : Str} {s : ProcState} (t : Str)
    (h : s.cursor < s.arguments.length) (hcol : colonOK s.arguments t)
    {out : Str} {s' : ProcState} (hs : paStep tn s = some (out, s')) :
    paStep tn (extendArgs t s) = some (out, extendArgs t s') := by
  have hget : s.arguments[s.cursor]? = some s.arguments[s.cursor] :=
    List.getElem?_eq_getElem h
  have hget2 : (s.arguments ++ t)[s.cursor]? = some s.arguments[s.cursor] :=
    getElem?_extend hget
  have hswitch : ∀ (s2 : ProcState), s2.arguments = s.arguments → s2.cursor = s.cursor →
      paSwitch tn s.arguments[s.cursor] (extendArgs t s2) =
        ((paSwitch tn s.arguments[s.cursor] s2).1,
          extendArgs t (paSwitch tn s.arguments[s.cursor] s2).2) := by
    intro s2 ha2 hc2
    refine paSwitch_extend t ?_
    intro hch _
    rw [ha2, hc2]
    exact hcol s.cursor h (by rw [hget, hch])
  unfold paStep at hs
  simp only [hget] at hs
  unfold paStep
  dsimp only [extendArgs]
  simp only [hget2]
  split at hs
  · -- inString
    rename_i hin
    rw [if_pos hin]
    split at hs
    · rename_i hstr
      rw [if_pos hstr]
      split at hs
      · rename_i hbs
        rw [if_pos hbs]
        split at hs
        · rename_i seq hseq
          rw [getFullEscapeSequence_extend (t := t) hseq]
          injection hs with hs
          rw [Prod.mk.injEq] at hs
          obtain ⟨ho, hst⟩ := hs
          subst ho hst
          rfl
        · exact absurd hs (by simp)
      · rename_i hbs
        rw [if_neg hbs]
        split at hs
        · rename_i hq
          rw [if_pos hq]
          split at hs
          · rename_i hpar
            rw [if_pos hpar]
            injection hs with hs
            rw [Prod.mk.injEq] at hs
            obtain ⟨ho, hst⟩ := hs
            subst ho hst
            rfl
          · rename_i hpar
            rw [if_neg hpar]
            split at hs
            · rename_i hpar2
              rw [if_pos hpar2]
              injection hs with hs
              rw [Prod.mk.injEq] at hs
              obtain ⟨ho, hst⟩ := hs
              subst ho hst
              rfl
            · rename_i hpar2
              rw [if_neg hpar2]
              injection hs with hs
              rw [Prod.mk.injEq] at hs
              obtain ⟨ho, hst⟩ := hs
              subst ho hst
              rfl
        · rename_i hq
          rw [if_neg hq]
          injection hs with hs
          rw [Prod.mk.injEq] at hs
          obtain ⟨ho, hst⟩ := hs
          subst ho hst
          rfl
    · rename_i hstr
      rw [if_neg hstr]
      split at hs
      · rename_i hbe
        rw [if_pos hbe]
        injection hs with hs
        rw [Prod.mk.injEq] at hs
        obtain ⟨ho, hst⟩ := hs
        subst ho hst
        rfl
      · rename_i hbe
        rw [if_neg hbe]
        split at hs
        · rename_i hqe
          rw [if_pos hqe]
          injection hs with hs
          rw [Prod.mk.injEq] at hs
          obtain ⟨ho, hst⟩ := hs
          subst ho hst
          rfl
        · rename_i hqe
          rw [if_neg hqe]
          injection hs with hs
          rw [Prod.mk.injEq] at hs
          obtain ⟨ho, hst⟩ := hs
          subst ho hst
          rfl
  · rename_i hin
    rw [if_neg hin]
    split at hs
    · rename_i hws
      rw [if_pos hws]
      injection hs with hs
      rw [Prod.mk.injEq] at hs
      obtain ⟨ho, hst⟩ := hs
      subst ho hst
      rfl
    · rename_i hws
      rw [if_neg hws]
      split at hs
      · rename_i hprim
        rw [if_pos hprim]
        injection hs with hs
        rw [Prod.mk.injEq] at hs
        obtain ⟨ho, hst⟩ := hs
        subst ho hst
        rfl
      · rename_i hprim
        rw [if_neg hprim]
        split at hs
        · rename_i hpb
          rw [if_pos hpb]
          split at hs
          · rename_i hvalid
            rw [if_pos hvalid]
            split at hs
            · rename_i hpar
              rw [if_pos hpar]
              injection hs with hs
              rw [Prod.mk.injEq] at hs
              obtain ⟨ho, hst⟩ := hs
              subst ho hst
              rfl
            · rename_i hpar
              rw [if_neg hpar]
              injection hs with hs
              rw [Prod.mk.injEq] at hs
              obtain ⟨ho, hst⟩ := hs
              subst ho hst
              rfl
          · rename_i hvalid
            rw [if_neg hvalid]
            injection hs with hs
            have hout : out = (paSwitch tn s.arguments[s.cursor]
                { s with primitiveBuffer := [] }).1 := by rw [hs]
            have hst : s' = (paSwitch tn s.arguments[s.cursor]
                { s with primitiveBuffer := [] }).2 := by rw [hs]
            subst hout hst
            exact congrArg some (hswitch { s with primitiveBuffer := [] } rfl rfl)
        · rename_i hpb
          rw [if_neg hpb]
          injection hs with hs
          have hout : out = (paSwitch tn s.arguments[s.cursor] s).1 := by rw [hs]
          have hst : s' = (paSwitch tn s.arguments[s.cursor] s).2 := by rw [hs]
          subst hout hst
          exact congrArg some (hswitch s rfl rfl)

end ToolCallHelper

namespace ToolCallHelper

/-- Extending the buffer of any state and rerunning `processArguments` is
the same as finishing the old buffer first and then running on the
extension: output concatenates, final states agree.  This is the heart of
chunk-invariance; `colonOK` excludes the one probe the machine makes past
its cursor whose answer can change when more input arrives. -/
theorem processArguments_extend_measure (tn t : Str) : ∀ (n : Nat) (s : ProcState),
    stepMeasure s ≤ n → colonOK s.arguments t →
    processArguments tn (extendArgs t s) =
      ((processArguments tn s).1 ++
          (processArguments tn (extendArgs t (processArguments tn s).2)).1,
        (processArguments tn (extendArgs t (processArguments tn s).2)).2) := by
  intro n
  induction n with
  | zero =>
    intro s hm hcol
    have hh : paHalted tn s := by
      left
      unfold stepMeasure at hm
      omega
    rw [processArguments_halted hh]
    simp
  | succ n ih =>
    intro s hm hcol
    by_cases hh : paHalted tn s
    · rw [processArguments_halted hh]
      simp
    · unfold paHalted at hh
      push_neg at hh
      obtain ⟨hlt, hne⟩ := hh
      rcases hstep : paStep tn s with _ | ⟨out, s₁⟩
      · exact absurd hstep hne
      · have hXeq := processArguments_of_step hlt hstep
        have hstep2 := paStep_extend t hlt hcol hstep
        have hlt2 : (extendArgs t s).cursor < (extendArgs t s).arguments.length := by
          unfold extendArgs
          simp
          omega
        have hZeq := processArguments_of_step hlt2 hstep2
        have hargs1 := (paStep_next hlt hstep).1
        have hmeas := (paStep_next hlt hstep).2
        have ihs := ih s₁ (by omega) (by rw [hargs1]; exact hcol)
        rw [hZeq, ihs, hXeq]
        simp

theorem processArguments_extend {tn t : Str} (s : ProcState)
    (hcol : colonOK s.arguments t) :
    processArguments tn (extendArgs t s) =
      ((processArguments tn s).1 ++
          (processArguments tn (extendArgs t (processArguments tn s).2)).1,
        (processArguments tn (extendArgs t (processArguments tn s).2)).2) :=
  processArguments_extend_measure tn t (stepMeasure s) s le_rfl hcol


/-! ### Step chains

`Steps tn s out s'` says the loop body of `processArguments` can take the
machine from `s` to `s'` emitting exactly `out`.  Chains compose, and a
chain ending in a quiescent state computes the whole of
`processArguments`. -/

inductive Steps (tn : Str) : ProcState → Str → ProcState → Prop where
  | refl (s : ProcState) : Steps tn s [] s
  | step {s : ProcState} {out : Str} {s' : ProcState} {rest : Str} {s'' : ProcState} :
      s.cursor < s.arguments.length → paStep tn s = some (out, s') →
      Steps tn s' rest s'' → Steps tn s (out ++ rest) s''

theorem Steps.cast {tn : Str} {s : ProcState} {o o' : Str} {s' s'' : ProcState}
    (h : Steps tn s o s') (ho : o = o') (hs : s' = s'') : Steps tn s o' s'' := by
  subst ho hs
  exact h

theorem Steps.single {tn : Str} {s : ProcState} {out : Str} {s' : ProcState}
    (hc : s.cursor < s.arguments.length) (h : paStep tn s = some (out, s')) :
    Steps tn s out s' :=
  (Steps.step hc h (Steps.refl s')).cast (by simp) rfl

theorem Steps.trans {tn : Str} {s₁ : ProcState} {o₁ : Str} {s₂ : ProcState} {o₂ : Str}
    {s₃ : ProcState} (h₁ : Steps tn s₁ o₁ s₂) (h₂ : Steps tn s₂ o₂ s₃) :
    Steps tn s₁ (o₁ ++ o₂) s₃ := by
  induction h₁ with
  | refl s => simpa using h₂
  | step hc hstep _ ih =>
    exact (Steps.step hc hstep (ih h₂)).cast (by simp) rfl

theorem Steps.run {tn : Str} {s : ProcState} {out : Str} {s' : ProcState}
    (h : Steps tn s out s') :
    processArguments tn s =
      (out ++ (processArguments tn s').1, (processArguments tn s').2) := by
  induction h with
  | refl s => simp
  | step hc hstep _ ih =>
    rename_i s out s₁ rest s₂
    rw [processArguments_of_step hc hstep, ih]
    simp

theorem Steps.run_halted {tn : Str} {s : ProcState} {out : Str} {s' : ProcState}
    (h : Steps tn s out s') (hh : paHalted tn s') :
    processArguments tn s = (out, s') := by
  rw [h.run, processArguments_halted hh]
  simp

/-! Fields of the state the loop body never writes. -/

theorem paSwitch_snd_flags (tn : Str) (ch : Char) (s : ProcState) :
    (paSwitch tn ch s).2.functionNameOutputted = s.functionNameOutputted ∧
    (paSwitch tn ch s).2.functionClosed = s.functionClosed := by
  unfold paSwitch
  dsimp only []
  split_ifs <;> exact ⟨rfl, rfl⟩

theorem paStep_flags {tn : Str} {s : ProcState} {out : Str} {s' : ProcState}
    (hs : paStep tn s = some (out, s')) :
    s'.functionNameOutputted = s.functionNameOutputted ∧
    s'.functionClosed = s.functionClosed := by
  unfold paStep at hs
  dsimp only [] at hs
  split at hs
  · injection hs with hs
    rw [Prod.mk.injEq] at hs
    obtain ⟨-, hst⟩ := hs
    subst hst
    exact ⟨rfl, rfl⟩
  · repeat' split at hs
    all_goals
      first
      | exact Option.noConfusion hs
      | (injection hs with hs
         rw [Prod.mk.injEq] at hs
         obtain ⟨-, hst⟩ := hs
         subst hst
         first
         | exact ⟨rfl, rfl⟩
         | exact paSwitch_snd_flags ..)

theorem paLoop_flags (tn : Str) : ∀ (fuel : Nat) (s : ProcState) (acc : Str),
    (paLoop tn fuel s acc).2.functionNameOutputted = s.functionNameOutputted ∧
    (paLoop tn fuel s acc).2.functionClosed = s.functionClosed := by
  intro fuel
  induction fuel with
  | zero => intro s acc; exact ⟨rfl, rfl⟩
  | succ f ih =>
    intro s acc
    simp only [paLoop]
    split
    · cases hstep : paStep tn s with
      | none => exact ⟨rfl, rfl⟩
      | some pr =>
        obtain ⟨out, s₁⟩ := pr
        have h1 := paStep_flags hstep
        have h2 := ih s₁ (acc ++ out)
        exact ⟨h2.1.trans h1.1, h2.2.trans h1.2⟩
    · exact ⟨rfl, rfl⟩

theorem processArguments_flags (tn : Str) (s : ProcState) :
    (processArguments tn s).2.functionNameOutputted = s.functionNameOutputted ∧
    (processArguments tn s).2.functionClosed = s.functionClosed :=
  paLoop_flags tn _ s []

/-! ### Evaluation lemmas for single loop iterations -/

theorem paStep_ws {tn : Str} {s : ProcState} {ch : Char}
    (hc : s.arguments[s.cursor]? = some ch) (hin : s.inString = false)
    (hws : isWs ch = true) :
    paStep tn s = some ([], { s with cursor := s.cursor + 1 }) := by
  unfold paStep
  rw [hc]
  dsimp only []
  rw [if_neg (by simp [hin]), if_pos hws]

theorem paStep_stream_char {tn : Str} {s : ProcState} {ch : Char}
    (hc : s.arguments[s.cursor]? = some ch) (hin : s.inString = true)
    (hstr : s.isStreamingStringValue = true) (h1 : ch ≠ '\\') (h2 : ch ≠ '"') :
    paStep tn s = some ([ch], { s with cursor := s.cursor + 1 }) := by
  unfold paStep
  rw [hc]
  dsimp only []
  rw [if_pos hin, if_pos hstr, if_neg h1, if_neg h2]

theorem paStep_stream_escape {tn : Str} {s : ProcState} {seq : Str}
    (hc : s.arguments[s.cursor]? = some '\\') (hin : s.inString = true)
    (hstr : s.isStreamingStringValue = true)
    (hesc : getFullEscapeSequence s.arguments s.cursor = some seq) :
    paStep tn s = some (decodeEscapeOut seq,
      { s with cursor := s.cursor + seq.length }) := by
  unfold paStep
  rw [hc]
  dsimp only []
  rw [if_pos hin, if_pos hstr, if_pos rfl, hesc]

theorem paStep_stream_stuck {tn : Str} {s : ProcState}
    (hc : s.arguments[s.cursor]? = some '\\') (hin : s.inString = true)
    (hstr : s.isStreamingStringValue = true)
    (hesc : getFullEscapeSequence s.arguments s.cursor = none) :
    paStep tn s = none := by
  unfold paStep
  rw [hc]
  dsimp only []
  rw [if_pos hin, if_pos hstr, if_pos rfl, hesc]

theorem paStep_stream_quote_obj {tn : Str} {s : ProcState}
    (hc : s.arguments[s.cursor]? = some '"') (hin : s.inString = true)
    (hstr : s.isStreamingStringValue = true)
    (hpar : s.bracketStack.head? = some .curly) :
    paStep tn s = some (tagGuard s.xmlTagStack.head? (fun t => onCloseTag t tn),
      { s with inString := false, isStreamingStringValue := false,
               xmlTagStack := s.xmlTagStack.tail,
               parserState := .expectCommaOrClosing, cursor := s.cursor + 1 }) := by
  unfold paStep
  rw [hc]
  dsimp only []
  rw [if_pos hin, if_pos hstr, if_neg (by decide), if_pos rfl, if_pos hpar]

theorem paStep_stream_quote_arr {tn : Str} {s : ProcState}
    (hc : s.arguments[s.cursor]? = some '"') (hin : s.inString = true)
    (hstr : s.isStreamingStringValue = true)
    (hpar : s.bracketStack.head? = some .square) :
    paStep tn s = some (tagGuard s.xmlTagStack.head? (fun t => onCloseTag t tn),
      { s with inString := false, isStreamingStringValue := false,
               parserState := .expectCommaOrClosing, cursor := s.cursor + 1 }) := by
  unfold paStep
  rw [hc]
  dsimp only []
  rw [if_pos hin, if_pos hstr, if_neg (by decide), if_pos rfl,
    if_neg (by rw [hpar]; decide), if_pos hpar]

theorem paStep_key_char {tn : Str} {s : ProcState} {ch : Char}
    (hc : s.arguments[s.cursor]? = some ch) (hin : s.inString = true)
    (hstr : s.isStreamingStringValue = false) (h1 : ch ≠ '\\') (h2 : ch ≠ '"') :
    paStep tn s = some ([], { s with currentString := s.currentString ++ [ch],
                                     isEscaped := false, cursor := s.cursor + 1 }) := by
  unfold paStep
  rw [hc]
  dsimp only []
  rw [if_pos hin, if_neg (by simp [hstr]), if_neg (by simp [h1]), if_neg (by simp [h2])]

theorem paStep_key_quote {tn : Str} {s : ProcState}
    (hc : s.arguments[s.cursor]? = some '"') (hin : s.inString = true)
    (hstr : s.isStreamingStringValue = false) (hesc : s.isEscaped = false) :
    paStep tn s = some ([],
      { s with inString := false,
               xmlTagStack :=
                 (jsonUnquote ('"' :: s.currentString ++ ['"'])).getD s.currentString ::
                   s.xmlTagStack,
               parserState := .expectColon, currentString := [],
               cursor := s.cursor + 1 }) := by
  unfold paStep
  rw [hc]
  dsimp only []
  rw [if_pos hin, if_neg (by simp [hstr]), if_neg (by simp),
    if_pos (by simp [hesc])]

theorem paStep_prim_char {tn : Str} {s : ProcState} {ch : Char}
    (hc : s.arguments[s.cursor]? = some ch) (hin : s.inString = false)
    (hws : isWs ch = false) (hps : s.parserState = .expectValue)
    (hprim : isPrimitiveChar ch = true) :
    paStep tn s = some ([], { s with primitiveBuffer := s.primitiveBuffer ++ [ch],
                                     cursor := s.cursor + 1 }) := by
  unfold paStep
  rw [hc]
  dsimp only []
  rw [if_neg (by simp [hin]), if_neg (by simp [hws]), if_pos (by simp [hps, hprim])]

theorem paStep_prim_flush_obj {tn : Str} {s : ProcState} {ch : Char}
    (hc : s.arguments[s.cursor]? = some ch) (hin : s.inString = false)
    (hws : isWs ch = false) (hps : s.parserState = .expectValue)
    (hprim : isPrimitiveChar ch = false) (hpb : s.primitiveBuffer ≠ [])
    (hvalid : isValidPrimitive (trimStr s.primitiveBuffer) = true)
    (hpar : ¬ s.bracketStack.head? = some .square) :
    paStep tn s = some
      (tagGuard s.xmlTagStack.head?
        (fun t => trimStr s.primitiveBuffer ++ onCloseTag t tn),
       { s with xmlTagStack := s.xmlTagStack.tail,
                parserState := .expectCommaOrClosing, primitiveBuffer := [] }) := by
  unfold paStep
  rw [hc]
  dsimp only []
  rw [if_neg (by simp [hin]), if_neg (by simp [hws]), if_neg (by simp [hprim]),
    if_pos (by simp [hps, hpb]), if_pos hvalid, if_neg hpar]

theorem paStep_prim_flush_arr {tn : Str} {s : ProcState} {ch : Char}
    (hc : s.arguments[s.cursor]? = some ch) (hin : s.inString = false)
    (hws : isWs ch = false) (hps : s.parserState = .expectValue)
    (hprim : isPrimitiveChar ch = false) (hpb : s.primitiveBuffer ≠ [])
    (hvalid : isValidPrimitive (trimStr s.primitiveBuffer) = true)
    (hpar : s.bracketStack.head? = some .square) :
    paStep tn s = some
      (tagGuard s.xmlTagStack.head?
        (fun t => getIndent (xmlLevel s.bracketStack) ++ onOpenTag t tn ++
          trimStr s.primitiveBuffer ++ onCloseTag t tn),
       { s with parserState := .expectCommaOrClosing, primitiveBuffer := [] }) := by
  unfold paStep
  rw [hc]
  dsimp only []
  rw [if_neg (by simp [hin]), if_neg (by simp [hws]), if_neg (by simp [hprim]),
    if_pos (by simp [hps, hpb]), if_pos hvalid, if_pos hpar]

theorem paStep_to_switch {tn : Str} {s : ProcState} {ch : Char}
    (hc : s.arguments[s.cursor]? = some ch) (hin : s.inString = false)
    (hws : isWs ch = false)
    (h6 : (decide (s.parserState = ParserState.expectValue) && isPrimitiveChar ch) = false)
    (h7 : (decide (s.parserState = ParserState.expectValue) &&
      !s.primitiveBuffer.isEmpty) = false) :
    paStep tn s = some (paSwitch tn ch s) := by
  unfold paStep
  rw [hc]
  dsimp only []
  rw [if_neg (by simp [hin]), if_neg (by simp [hws]), if_neg (by simp [h6]),
    if_neg (by simp [h7])]

/-! Evaluation of the `switch` for each structural character.  The right-hand
sides repeat the corresponding branch of `paSwitch` verbatim. -/

theorem paSwitch_eval_curly_open {tn : Str} {s : ProcState}
    (hps : s.parserState = .expectValue ∨ s.parserState = .expectRoot) :
    paSwitch tn '{' s =
      ((if s.bracketStack.head? = some Bracket.square then
          tagGuard s.xmlTagStack.head?
            (fun t => getIndent (xmlLevel s.bracketStack) ++ onOpenTag t tn)
        else []) ++ ['\n'],
       { s with bracketStack := .curly :: s.bracketStack, parserState := .expectKey,
                justOpenedArray := false, cursor := s.cursor + 1 }) := by
  unfold paSwitch
  rcases hps with h | h <;> rw [h] <;> rfl

theorem paSwitch_eval_curly_close {tn : Str} {s : ProcState}
    (hps : s.parserState = .expectKey ∨ s.parserState = .expectCommaOrClosing) :
    paSwitch tn '}' s =
      if s.bracketStack.head? = some Bracket.curly &&
          s.bracketStack.tail.head? = some Bracket.square then
        (tagGuard s.xmlTagStack.head?
          (fun t => getIndent (xmlLevel s.bracketStack.tail) ++ onCloseTag t tn),
         { s with bracketStack := s.bracketStack.tail,
                  parserState := .expectCommaOrClosing, cursor := s.cursor + 1 })
      else
        (tagGuard s.xmlTagStack.head?
          (fun t => getIndent (xmlLevel s.bracketStack.tail) ++ onCloseTag t tn),
         { s with bracketStack := s.bracketStack.tail,
                  xmlTagStack := s.xmlTagStack.tail,
                  parserState := .expectCommaOrClosing, cursor := s.cursor + 1 }) := by
  unfold paSwitch
  rcases hps with h | h <;> rw [h] <;> rfl

theorem paSwitch_eval_square_open {tn : Str} {s : ProcState}
    (hps : s.parserState = .expectValue ∨ s.parserState = .expectRoot) :
    paSwitch tn '[' s =
      ([], { s with bracketStack := .square :: s.bracketStack,
                    parserState := .expectValue, justOpenedArray := true,
                    cursor := s.cursor + 1 }) := by
  unfold paSwitch
  rcases hps with h | h <;> rw [h] <;> rfl

theorem paSwitch_eval_square_close {tn : Str} {s : ProcState}
    (hps : s.parserState = .expectValue ∨ s.parserState = .expectCommaOrClosing) :
    paSwitch tn ']' s =
      ((if s.parserState = ParserState.expectValue && s.justOpenedArray &&
            !s.xmlTagStack.isEmpty then
          tagGuard s.xmlTagStack.head?
            (fun t => getIndent (xmlLevel s.bracketStack) ++ onOpenTag t tn ++
              onCloseTag t tn)
        else []),
       { s with bracketStack := s.bracketStack.tail,
                xmlTagStack := s.xmlTagStack.tail,
                parserState := .expectCommaOrClosing, justOpenedArray := false,
                cursor := s.cursor + 1 }) := by
  unfold paSwitch
  rcases hps with h | h <;> rw [h] <;> rfl

theorem paSwitch_eval_quote_value {tn : Str} {s : ProcState}
    (hps : s.parserState = .expectValue) :
    paSwitch tn '"' s =
      ((if s.bracketStack.head? = some Bracket.square then
          tagGuard s.xmlTagStack.head?
            (fun t => getIndent (xmlLevel s.bracketStack) ++ onOpenTag t tn)
        else []),
       { s with isStreamingStringValue := true, inString := true,
                cursor := s.cursor + 1 }) := by
  unfold paSwitch
  rw [hps]
  rfl

theorem paSwitch_eval_quote_key {tn : Str} {s : ProcState}
    (hps : s.parserState = .expectKey) :
    paSwitch tn '"' s =
      ([], { s with isStreamingStringValue := false, inString := true,
                    cursor := s.cursor + 1 }) := by
  unfold paSwitch
  rw [hps]
  rfl

theorem paSwitch_eval_colon {tn : Str} {s : ProcState}
    (hps : s.parserState = .expectColon) :
    paSwitch tn ':' s =
      ((if nextNonWsAfter s.arguments s.cursor ≠ some '[' then
          tagGuard s.xmlTagStack.head?
            (fun t => getIndent (xmlLevel s.bracketStack) ++ onOpenTag t tn)
        else []),
       { s with parserState := .expectValue, cursor := s.cursor + 1 }) := by
  unfold paSwitch
  rw [hps]
  rfl

theorem paSwitch_eval_comma {tn : Str} {s : ProcState}
    (hps : s.parserState = .expectCommaOrClosing) :
    paSwitch tn ',' s =
      ([], { s with
               parserState := (if s.bracketStack.head? = some Bracket.curly then
                 ParserState.expectKey else ParserState.expectValue),
               cursor := s.cursor + 1 }) := by
  unfold paSwitch
  rw [hps]
  rfl


end ToolCallHelper


namespace ToolCallClaims

open ToolCallHelper

/-! Concrete runs used by counterexamples and witnesses.  For each run the
delta-loop result is first pinned to an explicit literal (`...Trip`), which
keeps kernel evaluation of the session functions linear. -/

def searchFilesOpen : Processor :=
  (processChunkOpenAIFormat toolRegistryNames
    [delta0 "1".data "search_files".data "\x7b\"foo\":\"bar\"".data] {}).2

def searchFilesFin1 : Processor := (finalize toolRegistryNames searchFilesOpen).2

/-- **C4** (code bug evidence): after streaming an incomplete
`search_files` call and finalizing once, a second `finalize()` with no
intervening deltas re-emits `</search_files>\n` instead of the empty
fragment the claim requires: `finalize` never latches `functionClosed`. -/
theorem c4_second_finalize_reemits_closing_tag :
    (finalize toolRegistryNames searchFilesFin1).1 = "</search_files>\n".data ∧
    (finalize toolRegistryNames searchFilesFin1).1 ≠ [] := by
  constructor <;> (apply of_decide_eq_true; rfl)

/-- **C8** (counterexample): `processChunk` and `processChunkTool` with a
provider type other than `"openai"` raise `Unsupported provider type` to
the caller, so not every input fed to the streaming processor degrades to
less output. -/
theorem c8_counterexample_unsupported_provider_raises :
    processChunk "anthropic".data toolRegistryNames [] {} =
      .error "Unsupported provider type: anthropic".data ∧
    processChunkTool "anthropic".data toolRegistryNames [] {} =
      .error "Unsupported provider type: anthropic".data := by
  constructor
  · unfold processChunk
    rw [if_neg (by decide)]
    congr 1
  · unfold processChunkTool
    rw [if_neg (by decide)]
    congr 1

/-- **C8** (amended): for the `"openai"` provider type - the only one the
streaming core supports - `processChunk` and `processChunkTool` always
return a result and never an error, for every chunk and processor state;
`finalize` and `tryBuildTemporaryJson` are total functions of the model. -/
theorem c8_amended_openai_path_never_raises (pt : Str) (registry : List Str)
    (chunk : List Delta) (p : Processor) (h : pt = "openai".data) :
    (∃ r, processChunkTool pt registry chunk p = .ok r) ∧
    (∃ r, processChunk pt registry chunk p = .ok r) := by
  subst h
  refine ⟨⟨processChunkOpenAIFormat registry chunk p, ?_⟩,
          ⟨((processChunkOpenAIFormat registry chunk p).1.chunkContent,
            (processChunkOpenAIFormat registry chunk p).2), ?_⟩⟩ <;>
    simp [processChunkTool, processChunk]

/-- Witness for `c8_amended_openai_path_never_raises` at a concrete input. -/
theorem c8_amended_witness :
    ("openai".data : Str) = "openai".data ∧
    ((∃ r, processChunkTool "openai".data toolRegistryNames [] {} = .ok r) ∧
     (∃ r, processChunk "openai".data toolRegistryNames [] {} = .ok r)) :=
  ⟨rfl, c8_amended_openai_path_never_raises "openai".data toolRegistryNames [] {} rfl⟩

/-! The C1 counterexample: `{"file":[{"path":"a"}]}` fed whole versus split
as `{"file":` + `[{"path":"a"}]}` for the registered tool `read_file`. -/

def c1ds1 : List Delta := [delta0 "1".data "read_file".data "\x7b\"file\":".data]

def c1ds2 : List Delta := [delta0 [] [] "[\x7b\"path\":\"a\"\x7d]\x7d".data]

def c1dsW : List Delta :=
  [delta0 "1".data "read_file".data "\x7b\"file\":[\x7b\"path\":\"a\"\x7d]\x7d".data]

def c1P1 : Processor :=
  { calls := [some ({ id := "1".data, name := "read_file".data,
                      arguments := "\x7b\"file\":".data },
      { functionNameOutputted := true, arguments := "\x7b\"file\":".data, cursor := 8,
        parserState := .expectValue, bracketStack := [.curly],
        xmlTagStack := ["file".data] })] }

def c1P2 : Processor :=
  { calls := [some ({ id := "1".data, name := "read_file".data,
                      arguments := "\x7b\"file\":[\x7b\"path\":\"a\"\x7d]\x7d".data },
      { functionNameOutputted := true, functionClosed := true,
        arguments := "\x7b\"file\":[\x7b\"path\":\"a\"\x7d]\x7d".data, cursor := 23,
        parserState := .expectCommaOrClosing })] }

theorem c1fold1 : c1ds1.foldl (processDelta toolRegistryNames) ([], 0, ({} : Processor)) =
    ("<read_file>\n<file>".data, 0, c1P1) := by
  apply of_decide_eq_true; rfl

theorem c1fold2 : c1ds2.foldl (processDelta toolRegistryNames) ([], 0, c1P1) =
    ("<file>\n\t<path>a</path>\n</file>\n</read_file>\n\n".data, 0, c1P2) := by
  apply of_decide_eq_true; rfl

theorem c1foldW : c1dsW.foldl (processDelta toolRegistryNames) ([], 0, ({} : Processor)) =
    ("<read_file>\n<file>\n\t<path>a</path>\n</file>\n</read_file>\n\n".data, 0, c1P2) := by
  apply of_decide_eq_true; rfl

theorem c1run1proc : (processChunkOpenAIFormat toolRegistryNames c1ds1 {}).2 = c1P1 := by
  unfold processChunkOpenAIFormat
  rw [c1fold1]

theorem c1run1content :
    (processChunkOpenAIFormat toolRegistryNames c1ds1 {}).1.chunkContent =
      "<read_file>\n<file>".data := by
  unfold processChunkOpenAIFormat
  rw [c1fold1]
  apply of_decide_eq_true; rfl

theorem c1run2proc : (processChunkOpenAIFormat toolRegistryNames c1ds2 c1P1).2 = c1P2 := by
  unfold processChunkOpenAIFormat
  rw [c1fold2]

theorem c1run2content :
    (processChunkOpenAIFormat toolRegistryNames c1ds2 c1P1).1.chunkContent =
      "<file>\n\t<path>a</path>\n</file>\n</read_file>\n\n".data := by
  unfold processChunkOpenAIFormat
  rw [c1fold2]
  apply of_decide_eq_true; rfl

theorem c1runWproc : (processChunkOpenAIFormat toolRegistryNames c1dsW {}).2 = c1P2 := by
  unfold processChunkOpenAIFormat
  rw [c1foldW]

theorem c1runWcontent :
    (processChunkOpenAIFormat toolRegistryNames c1dsW {}).1.chunkContent =
      "<read_file>\n<file>\n\t<path>a</path>\n</file>\n</read_file>\n\n".data := by
  unfold processChunkOpenAIFormat
  rw [c1foldW]
  apply of_decide_eq_true; rfl

/-- **C1** (counterexample): splitting the valid arguments
`{"file":[{"path":"a"}]}` for the registered tool `read_file` into
`{"file":` and `[{"path":"a"}]}` and feeding the pieces as successive
deltas duplicates the `<file>` opening tag - the colon lookahead cannot see
the `[` in the first chunk - so the concatenated output (with `finalize()`)
differs from the single-delta feed of the whole string. -/
theorem c1_counterexample_split_after_colon_before_array :
    (processChunkOpenAIFormat toolRegistryNames c1ds1 {}).1.chunkContent ++
      (processChunkOpenAIFormat toolRegistryNames c1ds2
        (processChunkOpenAIFormat toolRegistryNames c1ds1 {}).2).1.chunkContent ++
      (finalize toolRegistryNames
        (processChunkOpenAIFormat toolRegistryNames c1ds2
          (processChunkOpenAIFormat toolRegistryNames c1ds1 {}).2).2).1 ≠
    (processChunkOpenAIFormat toolRegistryNames c1dsW {}).1.chunkContent ++
      (finalize toolRegistryNames
        (processChunkOpenAIFormat toolRegistryNames c1dsW {}).2).1 := by
  rw [c1run1proc, c1run1content, c1run2proc, c1run2content, c1runWproc, c1runWcontent]
  apply of_decide_eq_true; rfl

/-- **C5**: idempotent resumption - from any parser state, running the
argument-advance operation (`processArguments`) twice in a row with no new
characters between the calls returns an empty fragment the second time and
leaves the state unchanged. -/
theorem c5_idempotent_resumption (tn : Str) (s : ProcState) :
    processArguments tn ((processArguments tn s).2) =
      ([], (processArguments tn s).2) :=
  processArguments_halted (processArguments_result_halted tn s)

end ToolCallClaims
